import Mathlib

/-!
Verification development for the label reconciliation and animation engine
of the G2Plot annotation layer (src/components/label/base.ts).

The embedding models:
- the per-pass label config maps (`labelsCfgMap`, `lastLabelsCfgMap`),
  which in the source are plain JS objects from label id to attribute
  snapshots, as association lists in insertion order with unique keys;
- label shapes and the scene-graph group as a list of shapes;
- the identity resolver `getLabelId`;
- the drawing pipeline and reconciliation of `renderInner`, where
  the side effects (attribute resets, animation calls, transient shape
  insertion) are recorded as an explicit event trace;
- the label component registry (`registerLabelComponent`,
  `getLabelComponent`).

Attribute snapshots are treated opaquely (the source only clones,
spreads and compares them), so the development is generic in `Attr`.
-/

/-- A config map: JS object from label id to an attribute snapshot,
modelled as an association list in key insertion order. -/
abbrev CfgMap (Attr : Type) := List (String × Attr)

namespace CfgMap

variable {Attr : Type}

/-- Keys of the map, in order. -/
def keys (m : CfgMap Attr) : List String := m.map Prod.fst

/-- JS property read `m[k]`: the value at key `k`, `none` for `undefined`. -/
def lookup : CfgMap Attr → String → Option Attr
  | [], _ => none
  | e :: rest, k => if e.1 = k then some e.2 else lookup rest k

/-- JS property write `m[k] = v`: overwrite in place, else append. -/
def insert : CfgMap Attr → String → Attr → CfgMap Attr
  | [], k, v => [(k, v)]
  | e :: rest, k, v => if e.1 = k then (k, v) :: rest else e :: insert rest k v

/-- JS `delete m[k]`: remove the key. -/
def erase : CfgMap Attr → String → CfgMap Attr
  | [], _ => []
  | e :: rest, k => if e.1 = k then erase rest k else e :: erase rest k

/-- Iterated key deletion: what an `each`-with-`delete` loop over `ks`
leaves of `m`. -/
def eraseAll (m : CfgMap Attr) (ks : List String) : CfgMap Attr :=
  ks.foldl erase m

end CfgMap

/-- A record of mapped data for one datum: the source reads
`data._origin[field]`, a loose record from field name to (stringified)
value. A missing field reads as the string rendering of `undefined`. -/
structure MappingDatum where
  origin : List (String × String)
deriving DecidableEq, Repr

/-- Read `origin[field]`; an absent field is `undefined`, which the
template literal in the source stringifies as "undefined". -/
def fieldVal (d : MappingDatum) (f : String) : String :=
  match d.origin.find? (fun e => e.1 = f) with
  | some e => e.2
  | none => "undefined"

/-- The slice of the geometry collaborator that `getLabelId` consumes:
its kind tag (`geometry.type`), the x/y scale field names, and the
per-datum element identity accessor (`geometry.getElementId`). -/
structure GeomInfo where
  type : String
  xField : String
  yField : String
  getElementId : MappingDatum → String

/-- The identity resolver (source `getLabelId`): start from the
element's base identity; for `line`/`area` append a space and the
x-field value; for `path` append a space, the x-field value, a hyphen
and the y-field value; otherwise leave the base identity unmodified. -/
def getLabelId (g : GeomInfo) (data : MappingDatum) : String :=
  let labelId := g.getElementId data
  if g.type = "line" ∨ g.type = "area" then
    labelId ++ " " ++ fieldVal data g.xField
  else if g.type = "path" then
    labelId ++ " " ++ fieldVal data g.xField ++ "-" ++ fieldVal data g.yField
  else
    labelId

-- Label component registry (source `LABEL_CONFIG_MAP`,
-- `registerLabelComponent`, `getLabelComponent`). The registry is a JS
-- object from type string to constructor; constructors are opaque, so
-- the model is generic in `C`.

/-- Source `registerLabelComponent(type, component)`:
`LABEL_CONFIG_MAP[type] = component`. -/
def registerLabelComponent {C : Type} (m : CfgMap C) (type : String) (component : C) :
    CfgMap C :=
  m.insert type component

/-- Source `getLabelComponent(type)`: `LABEL_CONFIG_MAP[type]`,
`none` when the type was never registered (JS `undefined`). -/
def getLabelComponent {C : Type} (m : CfgMap C) (type : String) : Option C :=
  m.lookup type

/-- The registry built by a sequence of registration calls, starting
from the empty `LABEL_CONFIG_MAP`. -/
def applyRegistrations {C : Type} (regs : List (String × C)) : CfgMap C :=
  regs.foldl (fun m r => registerLabelComponent m r.1 r.2) []

-- Shapes and the scene-graph group. A shape carries its id, its name
-- tag, an attribute snapshot and the destroyed flag; the group is the
-- ordered list of its child shapes.

/-- A drawable text shape owned by the group. -/
structure Shape (Attr : Type) where
  id : String
  name : String
  attrs : Attr
  destroyed : Bool
deriving DecidableEq, Repr

/-- Scene-graph `group.findById(id)`: first child with the given id. -/
def findById {Attr : Type} : List (Shape Attr) → String → Option (Shape Attr)
  | [], _ => none
  | s :: rest, i => if s.id = i then some s else findById rest i

/-- Scene-graph `shape.attr(attrs)` on the shape found by id: replace
the attributes of the first child carrying the id. -/
def setFirstAttr {Attr : Type} : List (Shape Attr) → String → Attr → List (Shape Attr)
  | [], _, _ => []
  | s :: rest, i, a =>
    if s.id = i then { s with attrs := a } :: rest else s :: setFirstAttr rest i a

/-- The three reconciliation phases of the G2 label animation. -/
inductive Phase where
  | appear
  | update
  | leave
deriving DecidableEq, Repr

/-- Observable side effects of reconciliation, in program order:
`setAttr` is `shape.attr(oldAttrs)`, `animate` is a `doAnimate` call
(`toAttrs = none` models the JS `toAttrs: null` of the leave phase),
and `addShape` is the insertion of the transient leave shape. -/
inductive Event (Attr : Type) where
  | setAttr (id : String) (attrs : Attr)
  | animate (id : String) (phase : Phase) (toAttrs : Option Attr)
  | addShape (id : String) (attrs : Attr)
deriving DecidableEq, Repr

/-- The id of the shape an event concerns. -/
def Event.eid {Attr : Type} : Event Attr → String
  | .setAttr i _ => i
  | .animate i _ _ => i
  | .addShape i _ => i

/-- The animation configuration resolved once per cycle: truthiness of
`get(animateCfg, 'appear' / 'update' / 'leave')`. When the geometry's
`animateOption` is falsy the whole configuration is `false`, i.e. all
three reads are falsy. -/
structure AnimateCfg where
  appear : Bool
  update : Bool
  leave : Bool
deriving DecidableEq, Repr

/-- State threaded through the first reconciliation loop over
`labelsCfgMap`: the group, the still-outstanding `lastLabelsCfgMap`,
and the events issued so far. -/
structure RecState (Attr : Type) where
  group : List (Shape Attr)
  last : CfgMap Attr
  trace : List (Event Attr)

/-- One iteration of the first loop of `renderInner`'s animation block
(source lines 95-125): look the shape up by id; if found and the id is
in the last map, optionally reset to the old attributes and issue an
update animation targeting the current attributes; if found and new,
optionally issue an appear animation targeting the shape's current
attributes; in every case delete the id from the last map. -/
def stepCurr {Attr : Type} (cfg : AnimateCfg) (st : RecState Attr)
    (entry : String × Attr) : RecState Attr :=
  match findById st.group entry.1 with
  | some shape =>
    match st.last.lookup entry.1 with
    | some oldAttrs =>
      if cfg.update then
        { group := setFirstAttr st.group entry.1 oldAttrs,
          last := st.last.erase entry.1,
          trace := st.trace ++
            [.setAttr entry.1 oldAttrs, .animate entry.1 .update (some entry.2)] }
      else
        { st with last := st.last.erase entry.1 }
    | none =>
      if cfg.appear then
        { st with
          last := st.last.erase entry.1,
          trace := st.trace ++ [.animate entry.1 .appear (some shape.attrs)] }
      else
        { st with last := st.last.erase entry.1 }
  | none => { st with last := st.last.erase entry.1 }

/-- One iteration of the second loop of `renderInner`'s animation block
(source lines 126-140): for an id left over in the last map, when a
leave transition is configured, add a transient text shape with the
previous attributes and animate it with `toAttrs = null`. -/
def stepLeave {Attr : Type} (cfg : AnimateCfg)
    (st : List (Shape Attr) × List (Event Attr)) (entry : String × Attr) :
    List (Shape Attr) × List (Event Attr) :=
  if cfg.leave then
    (st.1 ++ [⟨entry.1, "label", entry.2, false⟩],
     st.2 ++ [.addShape entry.1 entry.2, .animate entry.1 .leave none])
  else st

/-- Result of one reconciliation: the group after the pass, the map
that becomes `lastLabelsCfgMap` for the next cycle, and the issued
event trace. -/
structure RecResult (Attr : Type) where
  group : List (Shape Attr)
  nextLast : CfgMap Attr
  trace : List (Event Attr)

/-- The animation block of `renderInner` (source lines 92-141): iterate
the current `labelsCfgMap`, then the still-outstanding
`lastLabelsCfgMap`, and finally replace `lastLabelsCfgMap` with
`labelsCfgMap`. -/
def reconcile {Attr : Type} (cfg : AnimateCfg) (group : List (Shape Attr))
    (lastMap currMap : CfgMap Attr) : RecResult Attr :=
  let st1 := currMap.foldl (stepCurr cfg) ⟨group, lastMap, []⟩
  let st2 := st1.last.foldl (stepLeave cfg) (st1.group, st1.trace)
  ⟨st2.1, currMap, st2.2⟩

/-- The events one current-map entry emits, as a function of the group
and last map at the start of reconciliation (valid because current-map
keys are unique, so earlier iterations never touch this entry's id). -/
def emitCurr {Attr : Type} (cfg : AnimateCfg) (g : List (Shape Attr))
    (last : CfgMap Attr) (entry : String × Attr) : List (Event Attr) :=
  match findById g entry.1 with
  | some shape =>
    match last.lookup entry.1 with
    | some oldAttrs =>
      if cfg.update then
        [.setAttr entry.1 oldAttrs, .animate entry.1 .update (some entry.2)]
      else []
    | none =>
      if cfg.appear then [.animate entry.1 .appear (some shape.attrs)] else []
  | none => []

/-- The events one leave entry emits. -/
def emitLeave {Attr : Type} (cfg : AnimateCfg) (entry : String × Attr) :
    List (Event Attr) :=
  if cfg.leave then [.addShape entry.1 entry.2, .animate entry.1 .leave none] else []

/-- The group effect of one current-map entry. -/
def groupCurr {Attr : Type} (cfg : AnimateCfg) (g : List (Shape Attr))
    (last : CfgMap Attr) (entry : String × Attr) : List (Shape Attr) :=
  match findById g entry.1 with
  | some _ =>
    match last.lookup entry.1 with
    | some oldAttrs => if cfg.update then setFirstAttr g entry.1 oldAttrs else g
    | none => g
  | none => g

/-- The sub-trace of events concerning one id. -/
def byId {Attr : Type} (tr : List (Event Attr)) (i : String) : List (Event Attr) :=
  tr.filter (fun e => e.eid = i)

/-- How many animations of a given phase were issued for an id. -/
def animCount {Attr : Type} (tr : List (Event Attr)) (ph : Phase) (i : String) : Nat :=
  ((byId tr i).filter (fun e =>
    match e with
    | .animate _ p _ => p = ph
    | _ => false)).length

-- The drawing pipeline (source lines 75-89 and the helpers
-- `drawLabelItem` / `drawLabelText` / `getLabelId`). The pluggable
-- per-chart-type capabilities `getLabelItemAttrs` and `adjustLabel` are
-- abstract parameters; `adjustLabel` mutates the drawn shape in place,
-- modelled as a function from the drawn shape to the adjusted shape.

/-- The `mappingData` of an element's model: either a single datum or
an array of data, indexed positionally by label index. -/
inductive MappingData where
  | single (d : MappingDatum)
  | arr (ds : List MappingDatum)
deriving DecidableEq, Repr

/-- Source `isArray(model.mappingData) ? model.mappingData[idx] :
model.mappingData`. -/
def MappingData.atIdx : MappingData → Nat → MappingDatum
  | .single d, _ => d
  | .arr ds, i => ds.getD i ⟨[]⟩

/-- One data element of the geometry, as the pipeline consumes it. -/
structure Element where
  mappingData : MappingData
deriving DecidableEq, Repr

/-- The collaborators and pluggable capabilities `renderInner` needs:
the geometry slice, its `animateOption` and the per-phase transition
specs `getDefaultAnimateCfg` would yield, the element list, and the two
abstract per-chart-type capabilities. -/
structure LabelEnv (Attr : Type) where
  geom : GeomInfo
  animateOption : Bool
  defaultAnimateCfg : AnimateCfg
  elements : List Element
  getLabelItemAttrs : Element → Nat → List Attr
  adjust : Shape Attr → Element → Nat → Shape Attr

/-- `animateCfg` of source line 94: the default label animation config
when `animateOption` is truthy, otherwise `false` (all phases falsy). -/
def effectiveAnimateCfg {Attr : Type} (env : LabelEnv Attr) : AnimateCfg :=
  if env.animateOption then env.defaultAnimateCfg else ⟨false, false, false⟩

/-- The shape `drawLabelItem` draws for one attribute set: a text shape
with the resolved label id, name "label" and the computed attributes. -/
def drawnShape {Attr : Type} (env : LabelEnv Attr) (e : Element) (idx : Nat)
    (attrs : Attr) : Shape Attr :=
  { id := getLabelId env.geom (e.mappingData.atIdx idx),
    name := "label", attrs := attrs, destroyed := false }

/-- The shapes of one element after drawing and adjustment: each
attribute set from the capability is drawn, then `adjustLabel` is
applied to it in place. -/
def adjustedElement {Attr : Type} (env : LabelEnv Attr) (e : Element)
    (elementIdx : Nat) : List (Shape Attr) :=
  ((env.getLabelItemAttrs e elementIdx).enum).map
    (fun p => env.adjust (drawnShape env e p.1 p.2) e p.1)

/-- State of the drawing loop: the group, `this.labels`, and
`this.labelsCfgMap`. -/
structure DrawState (Attr : Type) where
  group : List (Shape Attr)
  labels : List (Shape Attr)
  labelsCfgMap : CfgMap Attr
deriving Repr

/-- The per-label bookkeeping of source lines 82-88: a label that is
not destroyed after adjustment is pushed to `this.labels` and its
cloned attributes recorded under its id. -/
def collectLabel {Attr : Type} (st : DrawState Attr) (s : Shape Attr) : DrawState Attr :=
  if s.destroyed then st
  else
    { st with
      labels := st.labels ++ [s],
      labelsCfgMap := st.labelsCfgMap.insert s.id s.attrs }

/-- One element of the outer drawing loop (source lines 80-89): draw
and adjust the element's labels (entering the group), then collect the
surviving ones. -/
def drawElementStep {Attr : Type} (env : LabelEnv Attr) (st : DrawState Attr)
    (p : Nat × Element) : DrawState Attr :=
  let adj := adjustedElement env p.2 p.1
  adj.foldl collectLabel { st with group := st.group ++ adj }

/-- The drawing phase of `renderInner` (source lines 76-89), starting
from freshly reset `labels` and `labelsCfgMap`. -/
def drawPhase {Attr : Type} (env : LabelEnv Attr) (group0 : List (Shape Attr)) :
    DrawState Attr :=
  (env.elements.enum).foldl (drawElementStep env) ⟨group0, [], []⟩

/-- All shapes drawn and adjusted in one pass, in drawing order. -/
def allAdjusted {Attr : Type} (env : LabelEnv Attr) : List (Shape Attr) :=
  env.elements.enum.flatMap (fun p => adjustedElement env p.2 p.1)

/-- Result of a full `renderInner` pass. -/
structure RenderResult (Attr : Type) where
  group : List (Shape Attr)
  labels : List (Shape Attr)
  lastLabelsCfgMap : CfgMap Attr
  trace : List (Event Attr)

/-- The whole of `renderInner`: drawing phase, then the animation
block, with the resulting `labelsCfgMap` becoming the next cycle's
`lastLabelsCfgMap`. -/
def renderInner {Attr : Type} (env : LabelEnv Attr) (group0 : List (Shape Attr))
    (lastMap : CfgMap Attr) : RenderResult Attr :=
  let d := drawPhase env group0
  let r := reconcile (effectiveAnimateCfg env) d.group lastMap d.labelsCfgMap
  ⟨r.group, d.labels, r.nextLast, r.trace⟩

/-- A concrete one-element environment whose adjustment capability
suppresses (destroys) every label it is given, for evaluating the
pipeline on a concrete input. -/
def envDestroyAll : LabelEnv Nat :=
  { geom := ⟨"interval", "x", "y", fun d => fieldVal d "name"⟩,
    animateOption := true,
    defaultAnimateCfg := ⟨true, true, true⟩,
    elements := [⟨.single ⟨[("name", "A")]⟩⟩],
    getLabelItemAttrs := fun _ _ => [5],
    adjust := fun s _ _ => { s with destroyed := true } }

namespace CfgMap

variable {Attr : Type}

theorem lookup_erase_ne (m : CfgMap Attr) (k j : String) (h : k ≠ j) :
    (m.erase k).lookup j = m.lookup j := by
  induction m with
  | nil => rfl
  | cons e rest ih =>
    simp only [erase]
    by_cases he : e.1 = k
    · rw [if_pos he, ih]
      have hj : ¬e.1 = j := fun hj => h (he.symm.trans hj)
      simp only [lookup, if_neg hj]
    · rw [if_neg he]
      simp only [lookup]
      rw [ih]

theorem lookup_erase_self (m : CfgMap Attr) (k : String) :
    (m.erase k).lookup k = none := by
  induction m with
  | nil => rfl
  | cons e rest ih =>
    simp only [erase]
    by_cases he : e.1 = k
    · rw [if_pos he]; exact ih
    · rw [if_neg he]
      simp only [lookup, if_neg he]
      exact ih

theorem lookup_eq_none_of_not_mem (m : CfgMap Attr) (k : String)
    (h : k ∉ m.keys) : m.lookup k = none := by
  induction m with
  | nil => rfl
  | cons e rest ih =>
    simp only [keys, List.map_cons, List.mem_cons] at h
    push_neg at h
    simp only [lookup, if_neg (fun hk : e.1 = k => h.1 hk.symm)]
    exact ih h.2

theorem lookup_isSome_of_mem (m : CfgMap Attr) (k : String)
    (h : k ∈ m.keys) : (m.lookup k).isSome := by
  induction m with
  | nil => simp [keys] at h
  | cons e rest ih =>
    by_cases he : e.1 = k
    · simp only [lookup, if_pos he, Option.isSome_some]
    · simp only [keys, List.map_cons, List.mem_cons] at h
      rcases h with h | h
      · exact absurd h.symm he
      · simp only [lookup, if_neg he]
        exact ih h

theorem mem_keys_of_lookup_isSome (m : CfgMap Attr) (k : String)
    (h : (m.lookup k).isSome) : k ∈ m.keys := by
  induction m with
  | nil => simp [lookup] at h
  | cons e rest ih =>
    by_cases he : e.1 = k
    · simp only [keys, List.map_cons, List.mem_cons]
      exact Or.inl he.symm
    · simp only [lookup, if_neg he] at h
      simp only [keys, List.map_cons, List.mem_cons]
      exact Or.inr (ih h)

theorem mem_of_lookup_eq_some (m : CfgMap Attr) (k : String) (a : Attr)
    (h : m.lookup k = some a) : (k, a) ∈ m := by
  induction m with
  | nil => simp [lookup] at h
  | cons e rest ih =>
    by_cases he : e.1 = k
    · simp only [lookup, if_pos he] at h
      have ha : e.2 = a := by injection h
      have hke : (k, a) = e := by
        rw [← he, ← ha]
      exact List.mem_cons.mpr (Or.inl hke)
    · simp only [lookup, if_neg he] at h
      exact List.mem_cons_of_mem e (ih h)

theorem erase_eq_filter (m : CfgMap Attr) (k : String) :
    m.erase k = m.filter (fun e => decide (¬e.1 = k)) := by
  induction m with
  | nil => rfl
  | cons e rest ih =>
    simp only [erase, List.filter_cons]
    by_cases he : e.1 = k
    · rw [if_pos he]
      simp [he, ih]
    · rw [if_neg he]
      simp [he, ih]

theorem eraseAll_eq_filter (ks : List String) :
    ∀ m : CfgMap Attr, m.eraseAll ks = m.filter (fun e => decide (e.1 ∉ ks)) := by
  induction ks with
  | nil =>
    intro m
    simp only [eraseAll, List.foldl_nil]
    exact (List.filter_eq_self.mpr (fun a _ => by simp)).symm
  | cons k rest ih =>
    intro m
    simp only [eraseAll, List.foldl_cons] at *
    rw [ih (m.erase k), erase_eq_filter, List.filter_filter]
    refine List.filter_congr (fun e _ => ?_)
    simp only [List.mem_cons, decide_not]
    by_cases h1 : e.1 = k <;> by_cases h2 : e.1 ∈ rest <;> simp [h1, h2]

theorem lookup_eraseAll (ks : List String) (m : CfgMap Attr) (j : String) :
    (m.eraseAll ks).lookup j = if j ∈ ks then none else m.lookup j := by
  induction ks generalizing m with
  | nil => simp [eraseAll]
  | cons k rest ih =>
    simp only [eraseAll, List.foldl_cons] at *
    by_cases hj : j = k
    · subst hj
      rw [ih]
      by_cases hr : j ∈ rest
      · simp [hr]
      · simp [hr, lookup_erase_self]
    · rw [ih, lookup_erase_ne m k j (fun h => hj h.symm)]
      by_cases hr : j ∈ rest <;> simp [hr, hj]

theorem keys_eraseAll_nodup (ks : List String) (m : CfgMap Attr)
    (h : m.keys.Nodup) : (m.eraseAll ks).keys.Nodup := by
  rw [eraseAll_eq_filter]
  have hsub : ((m.filter (fun e => decide (e.1 ∉ ks))).map Prod.fst).Sublist
      (m.map Prod.fst) := (List.filter_sublist m).map Prod.fst
  exact h.sublist hsub

theorem filter_key_of_nodup (m : CfgMap Attr) (i : String) (hn : m.keys.Nodup) :
    m.filter (fun e => decide (e.1 = i)) =
      match m.lookup i with
      | some a => [(i, a)]
      | none => [] := by
  induction m with
  | nil => rfl
  | cons e rest ih =>
    simp only [keys, List.map_cons, List.nodup_cons] at hn
    by_cases he : e.1 = i
    · have hrest : rest.filter (fun e2 => decide (e2.1 = i)) = [] := by
        refine List.filter_eq_nil_iff.mpr (fun e2 h2 => ?_)
        simp only [decide_eq_true_eq]
        intro hc
        exact hn.1 (he ▸ hc ▸ List.mem_map_of_mem Prod.fst h2)
      have hee : e = (i, e.2) := by
        rw [← he]
      have hlu : lookup (e :: rest) i = some e.2 := by
        simp only [lookup, if_pos he]
      rw [hlu, List.filter_cons_of_pos (by simp [he]), hrest, hee]
    · have hlu : lookup (e :: rest) i = lookup rest i := by
        simp only [lookup, if_neg he]
      rw [hlu, List.filter_cons_of_neg (by simp [he])]
      exact ih hn.2

end CfgMap

theorem lookup_insert_self {Attr : Type} (m : CfgMap Attr) (k : String) (v : Attr) :
    (m.insert k v).lookup k = some v := by
  induction m with
  | nil => simp [CfgMap.insert, CfgMap.lookup]
  | cons e rest ih =>
    simp only [CfgMap.insert]
    by_cases he : e.1 = k
    · rw [if_pos he]
      simp [CfgMap.lookup]
    · rw [if_neg he]
      simp only [CfgMap.lookup, if_neg he]
      exact ih

theorem lookup_insert_ne {Attr : Type} (m : CfgMap Attr) (k j : String) (v : Attr)
    (h : k ≠ j) : (m.insert k v).lookup j = m.lookup j := by
  induction m with
  | nil => simp [CfgMap.insert, CfgMap.lookup, h]
  | cons e rest ih =>
    simp only [CfgMap.insert]
    by_cases he : e.1 = k
    · rw [if_pos he]
      simp only [CfgMap.lookup, if_neg h,
        if_neg (fun hj : e.1 = j => h (he.symm.trans hj))]
    · rw [if_neg he]
      simp only [CfgMap.lookup]
      rw [ih]

-- Master lemmas about reconciliation: the first loop's effect on state,
-- and the per-id characterization of the issued event trace.

theorem stepCurr_eq {Attr : Type} (cfg : AnimateCfg) (g : List (Shape Attr))
    (last : CfgMap Attr) (tr : List (Event Attr)) (e : String × Attr) :
    stepCurr cfg ⟨g, last, tr⟩ e =
      ⟨groupCurr cfg g last e, last.erase e.1, tr ++ emitCurr cfg g last e⟩ := by
  unfold stepCurr groupCurr emitCurr
  cases hf : findById g e.1 with
  | none => simp
  | some s =>
    simp only
    cases hl : last.lookup e.1 with
    | none => cases ha : cfg.appear <;> simp
    | some old => cases hu : cfg.update <;> simp

theorem findById_setFirstAttr_ne {Attr : Type} (g : List (Shape Attr))
    (i j : String) (a : Attr) (h : i ≠ j) :
    findById (setFirstAttr g i a) j = findById g j := by
  induction g with
  | nil => rfl
  | cons s rest ih =>
    simp only [setFirstAttr]
    by_cases hs : s.id = i
    · rw [if_pos hs]
      have hj : ¬s.id = j := fun hj => h (hs.symm.trans hj)
      simp only [findById, if_neg hj]
    · rw [if_neg hs]
      simp only [findById]
      rw [ih]

theorem findById_groupCurr_ne {Attr : Type} (cfg : AnimateCfg)
    (g : List (Shape Attr)) (last : CfgMap Attr) (e : String × Attr) (j : String)
    (h : e.1 ≠ j) : findById (groupCurr cfg g last e) j = findById g j := by
  unfold groupCurr
  cases hf : findById g e.1 with
  | none => rfl
  | some s =>
    simp only
    cases hl : last.lookup e.1 with
    | none => rfl
    | some old =>
      cases hu : cfg.update
      · simp
      · simp [findById_setFirstAttr_ne g e.1 j old h]

theorem emitCurr_congr {Attr : Type} (cfg : AnimateCfg)
    (g g2 : List (Shape Attr)) (last last2 : CfgMap Attr) (e : String × Attr)
    (hf : findById g2 e.1 = findById g e.1)
    (hl : last2.lookup e.1 = last.lookup e.1) :
    emitCurr cfg g2 last2 e = emitCurr cfg g last e := by
  unfold emitCurr
  rw [hf, hl]

theorem flatMapCongr {A B : Type} (l : List A) (f h : A → List B)
    (hfh : ∀ a ∈ l, f a = h a) : l.flatMap f = l.flatMap h := by
  induction l with
  | nil => rfl
  | cons x rest ih =>
    simp only [List.flatMap_cons]
    rw [hfh x (List.mem_cons_self x rest), ih (fun a ha => hfh a (List.mem_cons_of_mem x ha))]

theorem foldCurr_trace {Attr : Type} (cfg : AnimateCfg) (curr : CfgMap Attr) :
    ∀ (g : List (Shape Attr)) (last : CfgMap Attr) (tr : List (Event Attr)),
      (curr.map Prod.fst).Nodup →
      (curr.foldl (stepCurr cfg) ⟨g, last, tr⟩).trace =
        tr ++ curr.flatMap (emitCurr cfg g last) := by
  induction curr with
  | nil => intro g last tr _; simp
  | cons e rest ih =>
    intro g last tr hn
    have hn2 : (rest.map Prod.fst).Nodup := (List.nodup_cons.mp hn).2
    have hmem : e.1 ∉ rest.map Prod.fst := (List.nodup_cons.mp hn).1
    have hne : ∀ e2 ∈ rest, e2.1 ≠ e.1 := by
      intro e2 h2 hc
      exact hmem (hc ▸ List.mem_map_of_mem Prod.fst h2)
    rw [List.foldl_cons, stepCurr_eq, ih _ _ _ hn2, List.flatMap_cons, ← List.append_assoc]
    have hcongr : rest.flatMap (emitCurr cfg (groupCurr cfg g last e) (last.erase e.1)) =
        rest.flatMap (emitCurr cfg g last) := by
      refine flatMapCongr rest _ _ (fun e2 h2 => ?_)
      exact emitCurr_congr cfg g _ last _ e2
        (findById_groupCurr_ne cfg g last e e2.1 (fun hx => hne e2 h2 hx.symm))
        (CfgMap.lookup_erase_ne last e.1 e2.1 (fun hx => hne e2 h2 hx.symm))
    rw [hcongr]

theorem foldCurr_last {Attr : Type} (cfg : AnimateCfg) (curr : CfgMap Attr) :
    ∀ (g : List (Shape Attr)) (last : CfgMap Attr) (tr : List (Event Attr)),
      (curr.foldl (stepCurr cfg) ⟨g, last, tr⟩).last =
        curr.foldl (fun m e => m.erase e.1) last := by
  induction curr with
  | nil => intro g last tr; rfl
  | cons e rest ih =>
    intro g last tr
    rw [List.foldl_cons, stepCurr_eq, ih, List.foldl_cons]

theorem groupCurr_of_update_false {Attr : Type} (cfg : AnimateCfg)
    (g : List (Shape Attr)) (last : CfgMap Attr) (e : String × Attr)
    (hu : cfg.update = false) : groupCurr cfg g last e = g := by
  unfold groupCurr
  cases hf : findById g e.1 with
  | none => rfl
  | some s =>
    simp only
    cases hl : last.lookup e.1 with
    | none => rfl
    | some old => simp [hu]

theorem foldCurr_group_of_update_false {Attr : Type} (cfg : AnimateCfg)
    (hu : cfg.update = false) (curr : CfgMap Attr) :
    ∀ (g : List (Shape Attr)) (last : CfgMap Attr) (tr : List (Event Attr)),
      (curr.foldl (stepCurr cfg) ⟨g, last, tr⟩).group = g := by
  induction curr with
  | nil => intro g last tr; rfl
  | cons e rest ih =>
    intro g last tr
    rw [List.foldl_cons, stepCurr_eq, groupCurr_of_update_false cfg g last e hu, ih]

theorem stepLeave_eq {Attr : Type} (cfg : AnimateCfg) (g : List (Shape Attr))
    (tr : List (Event Attr)) (e : String × Attr) :
    stepLeave cfg (g, tr) e =
      (g ++ (if cfg.leave then [⟨e.1, "label", e.2, false⟩] else []),
       tr ++ emitLeave cfg e) := by
  unfold stepLeave emitLeave
  cases hl : cfg.leave <;> simp

theorem foldLeave_trace {Attr : Type} (cfg : AnimateCfg) (rem : CfgMap Attr) :
    ∀ (g : List (Shape Attr)) (tr : List (Event Attr)),
      (rem.foldl (stepLeave cfg) (g, tr)).2 = tr ++ rem.flatMap (emitLeave cfg) := by
  induction rem with
  | nil => intro g tr; simp
  | cons e rest ih =>
    intro g tr
    rw [List.foldl_cons, stepLeave_eq, ih, List.flatMap_cons, List.append_assoc]

theorem foldLeave_group {Attr : Type} (cfg : AnimateCfg) (rem : CfgMap Attr) :
    ∀ (g : List (Shape Attr)) (tr : List (Event Attr)),
      (rem.foldl (stepLeave cfg) (g, tr)).1 =
        g ++ rem.flatMap
          (fun e => if cfg.leave then [⟨e.1, "label", e.2, false⟩] else []) := by
  induction rem with
  | nil => intro g tr; simp
  | cons e rest ih =>
    intro g tr
    rw [List.foldl_cons, stepLeave_eq, ih, List.flatMap_cons, List.append_assoc]

theorem foldl_erase_entries {Attr : Type} (curr : CfgMap Attr) (last : CfgMap Attr) :
    curr.foldl (fun m e => m.erase e.1) last = last.eraseAll curr.keys := by
  rw [CfgMap.eraseAll, CfgMap.keys, List.foldl_map]

theorem reconcile_trace_eq {Attr : Type} (cfg : AnimateCfg) (g : List (Shape Attr))
    (last curr : CfgMap Attr) (hnc : curr.keys.Nodup) :
    (reconcile cfg g last curr).trace =
      curr.flatMap (emitCurr cfg g last) ++
        (last.eraseAll curr.keys).flatMap (emitLeave cfg) := by
  unfold reconcile
  simp only
  rw [foldLeave_trace, foldCurr_trace cfg curr g last [] hnc, foldCurr_last,
    foldl_erase_entries]
  simp

theorem reconcile_group_eq {Attr : Type} (cfg : AnimateCfg) (g : List (Shape Attr))
    (last curr : CfgMap Attr) :
    (reconcile cfg g last curr).group =
      (curr.foldl (stepCurr cfg) ⟨g, last, []⟩).group ++
        (last.eraseAll curr.keys).flatMap
          (fun e => if cfg.leave then [⟨e.1, "label", e.2, false⟩] else []) := by
  unfold reconcile
  simp only
  rw [foldLeave_group, foldCurr_last, foldl_erase_entries]

theorem reconcile_nextLast {Attr : Type} (cfg : AnimateCfg) (g : List (Shape Attr))
    (last curr : CfgMap Attr) : (reconcile cfg g last curr).nextLast = curr := rfl

theorem eid_emitCurr {Attr : Type} (cfg : AnimateCfg) (g : List (Shape Attr))
    (last : CfgMap Attr) (e : String × Attr) :
    ∀ ev ∈ emitCurr cfg g last e, ev.eid = e.1 := by
  unfold emitCurr
  cases hf : findById g e.1 with
  | none => simp
  | some s =>
    simp only
    cases hl : last.lookup e.1 with
    | none => cases cfg.appear <;> simp [Event.eid]
    | some old => cases cfg.update <;> simp [Event.eid]

theorem eid_emitLeave {Attr : Type} (cfg : AnimateCfg) (e : String × Attr) :
    ∀ ev ∈ emitLeave cfg e, ev.eid = e.1 := by
  unfold emitLeave
  cases cfg.leave <;> simp [Event.eid]

theorem byId_flatMap_keyed {Attr : Type} (l : CfgMap Attr)
    (f : String × Attr → List (Event Attr)) (i : String)
    (hk : ∀ e ∈ l, ∀ ev ∈ f e, ev.eid = e.1) :
    (l.flatMap f).filter (fun ev => decide (ev.eid = i)) =
      (l.filter (fun e => decide (e.1 = i))).flatMap f := by
  induction l with
  | nil => rfl
  | cons e rest ih =>
    rw [List.flatMap_cons, List.filter_append]
    by_cases he : e.1 = i
    · rw [List.filter_cons_of_pos (by simp [he]), List.flatMap_cons]
      congr 1
      · exact List.filter_eq_self.mpr (fun ev hev => by
          simp [hk e (List.mem_cons_self e rest) ev hev, he])
      · exact ih (fun e2 h2 => hk e2 (List.mem_cons_of_mem e h2))
    · rw [List.filter_cons_of_neg (by simp [he])]
      have h0 : (f e).filter (fun ev => decide (ev.eid = i)) = [] :=
        List.filter_eq_nil_iff.mpr (fun ev hev => by
          simp [hk e (List.mem_cons_self e rest) ev hev, he])
      rw [h0]
      simp only [List.nil_append]
      exact ih (fun e2 h2 => hk e2 (List.mem_cons_of_mem e h2))

theorem reconcile_byId {Attr : Type} (cfg : AnimateCfg) (g : List (Shape Attr))
    (last curr : CfgMap Attr) (hnl : last.keys.Nodup) (hnc : curr.keys.Nodup)
    (i : String) :
    byId (reconcile cfg g last curr).trace i =
      (match curr.lookup i with
       | some a => emitCurr cfg g last (i, a)
       | none => []) ++
      (match curr.lookup i, last.lookup i with
       | none, some old => emitLeave cfg (i, old)
       | _, _ => []) := by
  have hR : (last.eraseAll curr.keys).keys.Nodup :=
    CfgMap.keys_eraseAll_nodup curr.keys last hnl
  rw [reconcile_trace_eq cfg g last curr hnc]
  unfold byId
  rw [List.filter_append,
    byId_flatMap_keyed curr _ i (fun e _ => eid_emitCurr cfg g last e),
    byId_flatMap_keyed _ _ i (fun e _ => eid_emitLeave cfg e),
    CfgMap.filter_key_of_nodup curr i hnc,
    CfgMap.filter_key_of_nodup _ i hR,
    CfgMap.lookup_eraseAll]
  cases hcur : curr.lookup i with
  | some a =>
    have hmem : i ∈ curr.keys :=
      CfgMap.mem_keys_of_lookup_isSome curr i (by simp [hcur])
    rw [if_pos hmem]
    simp
  | none =>
    have hmem : i ∉ curr.keys := by
      intro hm
      have hs := CfgMap.lookup_isSome_of_mem curr i hm
      rw [hcur] at hs
      simp at hs
    rw [if_neg hmem]
    cases hlast : last.lookup i with
    | some old => simp
    | none => simp

-- Identity resolver lemmas and claims C5 / C6.

theorem getLabelId_line_area (g : GeomInfo) (d : MappingDatum)
    (h : g.type = "line" ∨ g.type = "area") :
    getLabelId g d = g.getElementId d ++ " " ++ fieldVal d g.xField := by
  simp only [getLabelId]
  rw [if_pos h]

theorem getLabelId_path (g : GeomInfo) (d : MappingDatum) (h : g.type = "path") :
    getLabelId g d =
      g.getElementId d ++ " " ++ fieldVal d g.xField ++ "-" ++ fieldVal d g.yField := by
  simp only [getLabelId]
  have hna : ¬(g.type = "line" ∨ g.type = "area") := by
    rw [h]
    decide
  rw [if_neg hna, if_pos h]

theorem getLabelId_other (g : GeomInfo) (d : MappingDatum)
    (h1 : ¬(g.type = "line" ∨ g.type = "area")) (h2 : g.type ≠ "path") :
    getLabelId g d = g.getElementId d := by
  simp only [getLabelId]
  rw [if_neg h1, if_neg h2]

/-- C6: the identity resolver computes the element's base identity with
the x-field value appended for line and area geometries, with both the
x-field and y-field values appended for path geometries, and the base
identity unmodified for every other geometry kind. -/
theorem claim_c6_getLabelId_cases (g : GeomInfo) (d : MappingDatum) :
    ((g.type = "line" ∨ g.type = "area") →
      getLabelId g d = g.getElementId d ++ " " ++ fieldVal d g.xField) ∧
    (g.type = "path" →
      getLabelId g d =
        g.getElementId d ++ " " ++ fieldVal d g.xField ++ "-" ++ fieldVal d g.yField) ∧
    (¬(g.type = "line" ∨ g.type = "area") → g.type ≠ "path" →
      getLabelId g d = g.getElementId d) :=
  ⟨getLabelId_line_area g d, getLabelId_path g d, getLabelId_other g d⟩

/-- Witness for C6 at concrete line, path and interval geometries. -/
theorem claim_c6_witness :
    getLabelId ⟨"line", "x", "y", fun d => fieldVal d "name"⟩
        ⟨[("name", "Lon"), ("x", "1991"), ("y", "3")]⟩ = "Lon 1991" ∧
    getLabelId ⟨"path", "x", "y", fun d => fieldVal d "name"⟩
        ⟨[("name", "Lon"), ("x", "1991"), ("y", "3")]⟩ = "Lon 1991-3" ∧
    getLabelId ⟨"interval", "x", "y", fun d => fieldVal d "name"⟩
        ⟨[("name", "Lon"), ("x", "1991"), ("y", "3")]⟩ = "Lon" :=
  ⟨((claim_c6_getLabelId_cases ⟨"line", "x", "y", fun d => fieldVal d "name"⟩
      ⟨[("name", "Lon"), ("x", "1991"), ("y", "3")]⟩).1 (Or.inl rfl)).trans rfl,
   ((claim_c6_getLabelId_cases ⟨"path", "x", "y", fun d => fieldVal d "name"⟩
      ⟨[("name", "Lon"), ("x", "1991"), ("y", "3")]⟩).2.1 rfl).trans rfl,
   ((claim_c6_getLabelId_cases ⟨"interval", "x", "y", fun d => fieldVal d "name"⟩
      ⟨[("name", "Lon"), ("x", "1991"), ("y", "3")]⟩).2.2 (by decide) (by decide)).trans rfl⟩

/-- C5: the identity resolver is deterministic (identical inputs give
the identical identity string) and, for a line or area geometry, two
data items sharing a base identity but with different x-field values
resolve to distinct identities. -/
theorem claim_c5_resolver_deterministic_distinct (g : GeomInfo)
    (d1 d2 : MappingDatum)
    (hty : g.type = "line" ∨ g.type = "area")
    (hbase : g.getElementId d1 = g.getElementId d2)
    (hx : fieldVal d1 g.xField ≠ fieldVal d2 g.xField) :
    (∀ d3 d4 : MappingDatum, d3 = d4 → getLabelId g d3 = getLabelId g d4) ∧
    getLabelId g d1 ≠ getLabelId g d2 := by
  constructor
  · intro d3 d4 h34
    rw [h34]
  · rw [getLabelId_line_area g d1 hty, getLabelId_line_area g d2 hty, hbase]
    intro hcontra
    apply hx
    have hd := congrArg String.data hcontra
    rw [String.data_append, String.data_append, String.data_append,
      String.data_append] at hd
    exact String.ext (List.append_cancel_left hd)

/-- Witness for C5: same base identity "Lon", x values "1991" and
"1992", on a line geometry. -/
theorem claim_c5_witness :
    getLabelId ⟨"line", "x", "y", fun d => fieldVal d "name"⟩
        ⟨[("name", "Lon"), ("x", "1991")]⟩ ≠
      getLabelId ⟨"line", "x", "y", fun d => fieldVal d "name"⟩
        ⟨[("name", "Lon"), ("x", "1992")]⟩ :=
  (claim_c5_resolver_deterministic_distinct
    ⟨"line", "x", "y", fun d => fieldVal d "name"⟩
    ⟨[("name", "Lon"), ("x", "1991")]⟩ ⟨[("name", "Lon"), ("x", "1992")]⟩
    (Or.inl rfl) rfl (by decide)).2

-- Registry lemmas and claim C10.

theorem lookup_foldl_insert_not_mem {C : Type} (regs : List (String × C)) :
    ∀ (m : CfgMap C) (t : String), t ∉ regs.map Prod.fst →
      (regs.foldl (fun m2 r => registerLabelComponent m2 r.1 r.2) m).lookup t =
        m.lookup t := by
  induction regs with
  | nil => intro m t _; rfl
  | cons r rest ih =>
    intro m t ht
    simp only [List.map_cons, List.mem_cons] at ht
    push_neg at ht
    rw [List.foldl_cons, ih _ t ht.2]
    exact lookup_insert_ne m r.1 t r.2 (fun h => ht.1 h.symm)

/-- C10: after registering a constructor for a type, looking the type up
returns that constructor; a later registration for the same type
replaces the earlier one; and a type never registered looks up as
undefined. -/
theorem claim_c10_registry {C : Type} (m : CfgMap C) (t : String) (c c1 c2 : C)
    (regs : List (String × C)) (ht : t ∉ regs.map Prod.fst) :
    getLabelComponent (registerLabelComponent m t c) t = some c ∧
    getLabelComponent
        (registerLabelComponent (registerLabelComponent m t c1) t c2) t = some c2 ∧
    getLabelComponent (applyRegistrations regs) t = none := by
  refine ⟨lookup_insert_self m t c, lookup_insert_self _ t c2, ?_⟩
  unfold getLabelComponent applyRegistrations
  rw [lookup_foldl_insert_not_mem regs [] t ht]
  rfl

/-- Witness for C10 with a two-entry registration history and the
unregistered type "bar". -/
theorem claim_c10_witness :
    getLabelComponent (registerLabelComponent ([] : CfgMap Nat) "bar" 1) "bar" = some 1 ∧
    getLabelComponent
        (registerLabelComponent (registerLabelComponent ([] : CfgMap Nat) "bar" 1)
          "bar" 2) "bar" = some 2 ∧
    getLabelComponent (applyRegistrations [("line", 5), ("pie", 7)]) "bar" = none :=
  claim_c10_registry ([] : CfgMap Nat) "bar" 1 1 2 [("line", 5), ("pie", 7)] (by decide)

-- Reconciliation claims C1, C2, C3, C4, C7, C9.

theorem flatMap_nil_of_forall {A B : Type} (l : List A) (f : A → List B)
    (h : ∀ a ∈ l, f a = []) : l.flatMap f = [] := by
  induction l with
  | nil => rfl
  | cons x rest ih =>
    rw [List.flatMap_cons, h x (List.mem_cons_self x rest), List.nil_append,
      ih (fun a ha => h a (List.mem_cons_of_mem x ha))]

/-- C2: an identity present in both maps, with the update transition
configured and its shape found, is first reset to the previous pass's
attributes and then gets exactly one update animation whose target is
the current pass's attributes; it gets no appear and no leave call. -/
theorem claim_c2_update_path {Attr : Type} (cfg : AnimateCfg)
    (g : List (Shape Attr)) (last curr : CfgMap Attr) (i : String)
    (a old : Attr) (s : Shape Attr)
    (hnl : last.keys.Nodup) (hnc : curr.keys.Nodup)
    (hcur : curr.lookup i = some a) (hlast : last.lookup i = some old)
    (hf : findById g i = some s) (hu : cfg.update = true) :
    byId (reconcile cfg g last curr).trace i =
      [.setAttr i old, .animate i .update (some a)] ∧
    animCount (reconcile cfg g last curr).trace .update i = 1 ∧
    animCount (reconcile cfg g last curr).trace .appear i = 0 ∧
    animCount (reconcile cfg g last curr).trace .leave i = 0 := by
  have hb : byId (reconcile cfg g last curr).trace i =
      [.setAttr i old, .animate i .update (some a)] := by
    rw [reconcile_byId cfg g last curr hnl hnc i]
    simp [hcur, hlast, emitCurr, hf, hu]
  refine ⟨hb, ?_, ?_, ?_⟩ <;> simp [animCount, hb]

/-- Witness for C2: identity "Lon 1991" moves from attribute 10 to 20. -/
theorem claim_c2_witness :
    byId (reconcile (⟨true, true, true⟩ : AnimateCfg)
        [⟨"Lon 1991", "label", 20, false⟩]
        [("Lon 1991", 10)] [("Lon 1991", 20)]).trace "Lon 1991" =
      [.setAttr "Lon 1991" 10, .animate "Lon 1991" .update (some 20)] :=
  (claim_c2_update_path ⟨true, true, true⟩ [⟨"Lon 1991", "label", 20, false⟩]
    [("Lon 1991", 10)] [("Lon 1991", 20)] "Lon 1991" 20 10
    ⟨"Lon 1991", "label", 20, false⟩ (by decide) (by decide) (by decide) (by decide)
    (by decide) rfl).1

/-- C4: an identity present only in the current map, with the appear
transition configured and its shape found, gets exactly one appear
animation whose target is the shape's already-applied current
attributes, and zero update and leave calls. -/
theorem claim_c4_appear_path {Attr : Type} (cfg : AnimateCfg)
    (g : List (Shape Attr)) (last curr : CfgMap Attr) (i : String)
    (a : Attr) (s : Shape Attr)
    (hnl : last.keys.Nodup) (hnc : curr.keys.Nodup)
    (hcur : curr.lookup i = some a) (hlast : last.lookup i = none)
    (hf : findById g i = some s) (ha : cfg.appear = true) :
    byId (reconcile cfg g last curr).trace i =
      [.animate i .appear (some s.attrs)] ∧
    animCount (reconcile cfg g last curr).trace .appear i = 1 ∧
    animCount (reconcile cfg g last curr).trace .update i = 0 ∧
    animCount (reconcile cfg g last curr).trace .leave i = 0 := by
  have hb : byId (reconcile cfg g last curr).trace i =
      [.animate i .appear (some s.attrs)] := by
    rw [reconcile_byId cfg g last curr hnl hnc i]
    simp [hcur, hlast, emitCurr, hf, ha]
  refine ⟨hb, ?_, ?_, ?_⟩ <;> simp [animCount, hb]

/-- Witness for C4: identity "c" present only in the current map. -/
theorem claim_c4_witness :
    byId (reconcile (⟨true, true, true⟩ : AnimateCfg)
        [⟨"c", "label", 4, false⟩] [("b", 2)] [("c", 4)]).trace "c" =
      [.animate "c" .appear (some 4)] :=
  (claim_c4_appear_path ⟨true, true, true⟩ [⟨"c", "label", 4, false⟩]
    [("b", 2)] [("c", 4)] "c" 4 ⟨"c", "label", 4, false⟩
    (by decide) (by decide) (by decide) (by decide) (by decide) rfl).1

/-- C3: an identity present only in the previous map, with the leave
transition configured, causes one transient text shape carrying that
identity and the previous attributes to be inserted into the group and
one animation call with `toAttrs = null`; and the identity is absent
from the map that serves as previous for the next cycle. -/
theorem claim_c3_leave_path {Attr : Type} (cfg : AnimateCfg)
    (g : List (Shape Attr)) (last curr : CfgMap Attr) (i : String) (old : Attr)
    (hnl : last.keys.Nodup) (hnc : curr.keys.Nodup)
    (hcur : curr.lookup i = none) (hlast : last.lookup i = some old)
    (hl : cfg.leave = true) :
    byId (reconcile cfg g last curr).trace i =
      [.addShape i old, .animate i .leave none] ∧
    (⟨i, "label", old, false⟩ : Shape Attr) ∈ (reconcile cfg g last curr).group ∧
    (reconcile cfg g last curr).nextLast.lookup i = none := by
  have hmemc : i ∉ curr.keys := by
    intro hm
    have hs := CfgMap.lookup_isSome_of_mem curr i hm
    rw [hcur] at hs
    simp at hs
  refine ⟨?_, ?_, ?_⟩
  · rw [reconcile_byId cfg g last curr hnl hnc i]
    simp [hcur, hlast, emitLeave, hl]
  · rw [reconcile_group_eq]
    refine List.mem_append_right _ ?_
    refine List.mem_flatMap.mpr ⟨(i, old), ?_, ?_⟩
    · refine CfgMap.mem_of_lookup_eq_some _ i old ?_
      rw [CfgMap.lookup_eraseAll, if_neg hmemc]
      exact hlast
    · simp [hl]
  · rw [reconcile_nextLast]
    exact hcur

/-- Witness for C3: identity "b" present only in the previous map. -/
theorem claim_c3_witness :
    byId (reconcile (⟨true, true, true⟩ : AnimateCfg)
        [⟨"c", "label", 4, false⟩] [("b", 2)] [("c", 4)]).trace "b" =
      [.addShape "b" 2, .animate "b" .leave none] :=
  (claim_c3_leave_path ⟨true, true, true⟩ [⟨"c", "label", 4, false⟩]
    [("b", 2)] [("c", 4)] "b" 2 (by decide) (by decide) (by decide) (by decide)
    rfl).1

/-- C7: an identity present in the current map whose shape lookup in the
group yields nothing gets no animation at all, and in particular is
never classified as leave in the same pass even though it is present in
the previous map and a leave transition is configured. -/
theorem claim_c7_missing_shape {Attr : Type} (cfg : AnimateCfg)
    (g : List (Shape Attr)) (last curr : CfgMap Attr) (i : String)
    (hnl : last.keys.Nodup) (hnc : curr.keys.Nodup)
    (hmemc : i ∈ curr.keys) (hmeml : i ∈ last.keys)
    (hf : findById g i = none) (hl : cfg.leave = true) :
    byId (reconcile cfg g last curr).trace i = [] := by
  obtain ⟨a, ha⟩ := Option.isSome_iff_exists.mp
    (CfgMap.lookup_isSome_of_mem curr i hmemc)
  rw [reconcile_byId cfg g last curr hnl hnc i]
  simp [ha, emitCurr, hf]

/-- Witness for C7: identity "a" in both maps but with no shape in the
group; no event at all is issued for it. -/
theorem claim_c7_witness :
    byId (reconcile (⟨true, true, true⟩ : AnimateCfg)
        ([] : List (Shape Nat)) [("a", 1)] [("a", 3)]).trace "a" = [] :=
  claim_c7_missing_shape ⟨true, true, true⟩ [] [("a", 1)] [("a", 3)] "a"
    (by decide) (by decide) (by decide) (by decide) rfl rfl

/-- C1: every identity present in the previous map is processed by
reconciliation exactly once: it gets exactly one update animation and
no leave animation when it is also present in the current map (with the
update and leave transitions configured and all current shapes
findable), and exactly one leave animation and no update animation
otherwise — never both, never neither. -/
theorem claim_c1_classification {Attr : Type} (cfg : AnimateCfg)
    (g : List (Shape Attr)) (last curr : CfgMap Attr)
    (hnl : last.keys.Nodup) (hnc : curr.keys.Nodup)
    (hu : cfg.update = true) (hl : cfg.leave = true)
    (hshapes : ∀ i ∈ curr.keys, (findById g i).isSome) :
    ∀ i ∈ last.keys,
      (i ∈ curr.keys →
        animCount (reconcile cfg g last curr).trace .update i = 1 ∧
        animCount (reconcile cfg g last curr).trace .leave i = 0) ∧
      (i ∉ curr.keys →
        animCount (reconcile cfg g last curr).trace .leave i = 1 ∧
        animCount (reconcile cfg g last curr).trace .update i = 0) := by
  intro i hil
  obtain ⟨old, hold⟩ := Option.isSome_iff_exists.mp
    (CfgMap.lookup_isSome_of_mem last i hil)
  constructor
  · intro hic
    obtain ⟨a, ha⟩ := Option.isSome_iff_exists.mp
      (CfgMap.lookup_isSome_of_mem curr i hic)
    obtain ⟨s, hs⟩ := Option.isSome_iff_exists.mp (hshapes i hic)
    have hb := reconcile_byId cfg g last curr hnl hnc i
    constructor <;>
      · unfold animCount
        rw [hb]
        simp [ha, hold, emitCurr, hs, hu]
  · intro hic
    have ha : curr.lookup i = none := CfgMap.lookup_eq_none_of_not_mem curr i hic
    have hb := reconcile_byId cfg g last curr hnl hnc i
    constructor <;>
      · unfold animCount
        rw [hb]
        simp [ha, hold, emitLeave, hl]

/-- Witness for C1: previous map with ids "a" (also current) and "b"
(gone); "a" gets one update and no leave, "b" one leave and no update. -/
theorem claim_c1_witness :
    (animCount (reconcile (⟨true, true, true⟩ : AnimateCfg)
        [⟨"a", "label", 3, false⟩, ⟨"c", "label", 4, false⟩]
        [("a", 1), ("b", 2)] [("a", 3), ("c", 4)]).trace .update "a" = 1 ∧
      animCount (reconcile (⟨true, true, true⟩ : AnimateCfg)
        [⟨"a", "label", 3, false⟩, ⟨"c", "label", 4, false⟩]
        [("a", 1), ("b", 2)] [("a", 3), ("c", 4)]).trace .leave "a" = 0) ∧
    (animCount (reconcile (⟨true, true, true⟩ : AnimateCfg)
        [⟨"a", "label", 3, false⟩, ⟨"c", "label", 4, false⟩]
        [("a", 1), ("b", 2)] [("a", 3), ("c", 4)]).trace .leave "b" = 1 ∧
      animCount (reconcile (⟨true, true, true⟩ : AnimateCfg)
        [⟨"a", "label", 3, false⟩, ⟨"c", "label", 4, false⟩]
        [("a", 1), ("b", 2)] [("a", 3), ("c", 4)]).trace .update "b" = 0) :=
  ⟨(claim_c1_classification ⟨true, true, true⟩
      [⟨"a", "label", 3, false⟩, ⟨"c", "label", 4, false⟩]
      [("a", 1), ("b", 2)] [("a", 3), ("c", 4)]
      (by decide) (by decide) rfl rfl (by decide) "a" (by decide)).1 (by decide),
   (claim_c1_classification ⟨true, true, true⟩
      [⟨"a", "label", 3, false⟩, ⟨"c", "label", 4, false⟩]
      [("a", 1), ("b", 2)] [("a", 3), ("c", 4)]
      (by decide) (by decide) rfl rfl (by decide) "b" (by decide)).2 (by decide)⟩

theorem findById_append_of_isSome {Attr : Type} (g1 g2 : List (Shape Attr))
    (i : String) (h : (findById g1 i).isSome) :
    findById (g1 ++ g2) i = findById g1 i := by
  induction g1 with
  | nil => simp [findById] at h
  | cons s rest ih =>
    by_cases hs : s.id = i
    · simp only [List.cons_append, findById, if_pos hs]
    · simp only [findById, if_neg hs] at h
      simp only [List.cons_append, findById, if_neg hs]
      exact ih h

theorem foldCurr_findById_of_lookup_none {Attr : Type} (cfg : AnimateCfg)
    (curr : CfgMap Attr) :
    ∀ (g : List (Shape Attr)) (last : CfgMap Attr) (tr : List (Event Attr))
      (i : String), last.lookup i = none →
      findById (curr.foldl (stepCurr cfg) ⟨g, last, tr⟩).group i = findById g i := by
  induction curr with
  | nil => intro g last tr i _; rfl
  | cons e rest ih =>
    intro g last tr i hnone
    rw [List.foldl_cons, stepCurr_eq]
    have hlast2 : (last.erase e.1).lookup i = none := by
      by_cases he : e.1 = i
      · subst he
        exact CfgMap.lookup_erase_self last e.1
      · rw [CfgMap.lookup_erase_ne last e.1 i he]
        exact hnone
    rw [ih _ _ _ i hlast2]
    by_cases he : e.1 = i
    · subst he
      unfold groupCurr
      cases hf : findById g e.1 with
      | none => simpa using hf
      | some s =>
        simp only [hnone]
        exact hf
    · exact findById_groupCurr_ne cfg g last e i he

theorem map_id_setFirstAttr {Attr : Type} (g : List (Shape Attr)) (i : String)
    (a : Attr) : (setFirstAttr g i a).map Shape.id = g.map Shape.id := by
  induction g with
  | nil => rfl
  | cons s rest ih =>
    simp only [setFirstAttr]
    by_cases hs : s.id = i
    · rw [if_pos hs]
      simp
    · rw [if_neg hs]
      simp [ih]

theorem map_id_groupCurr {Attr : Type} (cfg : AnimateCfg) (g : List (Shape Attr))
    (last : CfgMap Attr) (e : String × Attr) :
    (groupCurr cfg g last e).map Shape.id = g.map Shape.id := by
  unfold groupCurr
  cases hf : findById g e.1 with
  | none => rfl
  | some s =>
    simp only
    cases hl : last.lookup e.1 with
    | none => rfl
    | some old => cases cfg.update <;> simp [map_id_setFirstAttr]

theorem foldCurr_map_id {Attr : Type} (cfg : AnimateCfg) (curr : CfgMap Attr) :
    ∀ (g : List (Shape Attr)) (last : CfgMap Attr) (tr : List (Event Attr)),
      ((curr.foldl (stepCurr cfg) ⟨g, last, tr⟩).group).map Shape.id =
        g.map Shape.id := by
  induction curr with
  | nil => intro g last tr; rfl
  | cons e rest ih =>
    intro g last tr
    rw [List.foldl_cons, stepCurr_eq, ih, map_id_groupCurr]

/-- C9: for every reconciliation phase whose transition spec is absent
no animation call is issued for identities in that phase, yet the
end-of-pass state change still happens: with the appear spec absent a
current-only identity gets no events and its shape still ends the pass
carrying its already-applied current attributes; with the update spec
absent a both-maps identity gets no events and its shape still ends
the pass carrying the current pass's attributes; with the leave spec
absent a previous-only identity gets no events and no shape with its
id exists at the end of the pass (given none existed in the group). -/
theorem claim_c9_absent_spec {Attr : Type} (cfg : AnimateCfg)
    (g : List (Shape Attr)) (last curr : CfgMap Attr)
    (idA idU idL : String) (aA aU oldU oldL : Attr) (sA sU : Shape Attr)
    (hnl : last.keys.Nodup) (hnc : curr.keys.Nodup)
    (hcurA : curr.lookup idA = some aA) (hlastA : last.lookup idA = none)
    (hfA : findById g idA = some sA) (hsaA : sA.attrs = aA)
    (hcurU : curr.lookup idU = some aU) (hlastU : last.lookup idU = some oldU)
    (hfU : findById g idU = some sU) (hsaU : sU.attrs = aU)
    (hcurL : curr.lookup idL = none) (hlastL : last.lookup idL = some oldL)
    (hgL : ∀ t ∈ g, t.id ≠ idL) :
    (cfg.appear = false →
      byId (reconcile cfg g last curr).trace idA = [] ∧
      (findById (reconcile cfg g last curr).group idA).map Shape.attrs = some aA) ∧
    (cfg.update = false →
      byId (reconcile cfg g last curr).trace idU = [] ∧
      (findById (reconcile cfg g last curr).group idU).map Shape.attrs = some aU) ∧
    (cfg.leave = false →
      byId (reconcile cfg g last curr).trace idL = [] ∧
      ∀ t ∈ (reconcile cfg g last curr).group, t.id ≠ idL) := by
  refine ⟨fun hap => ⟨?_, ?_⟩, fun hupd => ⟨?_, ?_⟩, fun hlv => ⟨?_, ?_⟩⟩
  · rw [reconcile_byId cfg g last curr hnl hnc idA]
    simp [hcurA, hlastA, emitCurr, hfA, hap]
  · have hstep1 : findById (curr.foldl (stepCurr cfg) ⟨g, last, []⟩).group idA =
        findById g idA :=
      foldCurr_findById_of_lookup_none cfg curr g last [] idA hlastA
    rw [reconcile_group_eq,
      findById_append_of_isSome _ _ idA (by rw [hstep1, hfA]; rfl), hstep1, hfA]
    simp [hsaA]
  · rw [reconcile_byId cfg g last curr hnl hnc idU]
    simp [hcurU, hlastU, emitCurr, hfU, hupd]
  · rw [reconcile_group_eq, foldCurr_group_of_update_false cfg hupd curr,
      findById_append_of_isSome _ _ idU (by rw [hfU]; rfl), hfU]
    simp [hsaU]
  · rw [reconcile_byId cfg g last curr hnl hnc idL]
    simp [hcurL, hlastL, emitLeave, hlv]
  · rw [reconcile_group_eq,
      flatMap_nil_of_forall _ _ (fun e he => by simp [hlv]), List.append_nil]
    intro t ht
    have hin : t.id ∈ ((curr.foldl (stepCurr cfg) ⟨g, last, []⟩).group).map Shape.id :=
      List.mem_map_of_mem Shape.id ht
    rw [foldCurr_map_id cfg curr g last []] at hin
    obtain ⟨u, hu2, hid⟩ := List.mem_map.mp hin
    rw [← hid]
    exact hgL u hu2

/-- Witness for C9: no appear, update or leave transition configured;
identity "c" is only in the current map and keeps its applied
attribute, identity "a" is in both maps and keeps its current
attribute, identity "b" is only in the previous map; none of the three
gets any event. -/
theorem claim_c9_witness :
    byId (reconcile (⟨false, false, false⟩ : AnimateCfg)
        [⟨"a", "label", 3, false⟩, ⟨"c", "label", 4, false⟩]
        [("a", 1), ("b", 2)] [("a", 3), ("c", 4)]).trace "c" = [] ∧
    (findById (reconcile (⟨false, false, false⟩ : AnimateCfg)
        [⟨"a", "label", 3, false⟩, ⟨"c", "label", 4, false⟩]
        [("a", 1), ("b", 2)] [("a", 3), ("c", 4)]).group
      "c").map Shape.attrs = some 4 ∧
    byId (reconcile (⟨false, false, false⟩ : AnimateCfg)
        [⟨"a", "label", 3, false⟩, ⟨"c", "label", 4, false⟩]
        [("a", 1), ("b", 2)] [("a", 3), ("c", 4)]).trace "a" = [] ∧
    (findById (reconcile (⟨false, false, false⟩ : AnimateCfg)
        [⟨"a", "label", 3, false⟩, ⟨"c", "label", 4, false⟩]
        [("a", 1), ("b", 2)] [("a", 3), ("c", 4)]).group
      "a").map Shape.attrs = some 3 ∧
    byId (reconcile (⟨false, false, false⟩ : AnimateCfg)
        [⟨"a", "label", 3, false⟩, ⟨"c", "label", 4, false⟩]
        [("a", 1), ("b", 2)] [("a", 3), ("c", 4)]).trace "b" = [] := by
  have H := claim_c9_absent_spec (⟨false, false, false⟩ : AnimateCfg)
    [⟨"a", "label", 3, false⟩, ⟨"c", "label", 4, false⟩]
    [("a", 1), ("b", 2)] [("a", 3), ("c", 4)] "c" "a" "b" 4 3 1 2
    ⟨"c", "label", 4, false⟩ ⟨"a", "label", 3, false⟩
    (by decide) (by decide) (by decide) (by decide) (by decide) rfl
    (by decide) (by decide) (by decide) rfl (by decide) (by decide) (by decide)
  exact ⟨(H.1 rfl).1, (H.1 rfl).2, (H.2.1 rfl).1, (H.2.1 rfl).2, (H.2.2 rfl).1⟩

-- Drawing pipeline lemmas and claim C8.

namespace CfgMap

theorem mem_keys_insert {Attr : Type} (m : CfgMap Attr) (k0 k : String) (v : Attr)
    (h : k ∈ (m.insert k0 v).keys) : k ∈ m.keys ∨ k = k0 := by
  induction m with
  | nil =>
    simp only [insert, keys, List.map_cons, List.map_nil, List.mem_cons,
      List.not_mem_nil, or_false] at h
    exact Or.inr h
  | cons e rest ih =>
    simp only [insert] at h
    by_cases he : e.1 = k0
    · rw [if_pos he] at h
      simp only [keys, List.map_cons, List.mem_cons] at h
      rcases h with h | h
      · exact Or.inr h
      · exact Or.inl (by simp only [keys, List.map_cons, List.mem_cons]; exact Or.inr h)
    · rw [if_neg he] at h
      simp only [keys, List.map_cons, List.mem_cons] at h
      rcases h with h | h
      · exact Or.inl (by simp only [keys, List.map_cons, List.mem_cons]; exact Or.inl h)
      · rcases ih h with h2 | h2
        · exact Or.inl (by
            simp only [keys, List.map_cons, List.mem_cons]
            exact Or.inr h2)
        · exact Or.inr h2

end CfgMap

theorem keys_foldl_insert {Attr : Type} (l : List (Shape Attr)) :
    ∀ (m : CfgMap Attr) (k : String),
      k ∈ (l.foldl (fun m2 s => m2.insert s.id s.attrs) m).keys →
      k ∈ m.keys ∨ ∃ t ∈ l, t.id = k := by
  induction l with
  | nil => intro m k h; exact Or.inl h
  | cons t rest ih =>
    intro m k h
    rw [List.foldl_cons] at h
    rcases ih _ k h with h1 | ⟨t2, h2, h3⟩
    · rcases CfgMap.mem_keys_insert m t.id k t.attrs h1 with h2 | h2
      · exact Or.inl h2
      · exact Or.inr ⟨t, List.mem_cons_self t rest, h2.symm⟩
    · exact Or.inr ⟨t2, List.mem_cons_of_mem t h2, h3⟩

theorem collectLabel_fold {Attr : Type} (adj : List (Shape Attr)) :
    ∀ st : DrawState Attr,
      adj.foldl collectLabel st =
        ⟨st.group,
         st.labels ++ adj.filter (fun s => !s.destroyed),
         (adj.filter (fun s => !s.destroyed)).foldl
           (fun m s => m.insert s.id s.attrs) st.labelsCfgMap⟩ := by
  induction adj with
  | nil => intro st; simp
  | cons s rest ih =>
    intro st
    rw [List.foldl_cons]
    by_cases hd : s.destroyed = true
    · have hstep : collectLabel st s = st := by
        unfold collectLabel
        rw [if_pos hd]
      rw [hstep, ih st, List.filter_cons_of_neg (by simp [hd])]
    · have hstep : collectLabel st s =
          ⟨st.group, st.labels ++ [s], st.labelsCfgMap.insert s.id s.attrs⟩ := by
        unfold collectLabel
        rw [if_neg hd]
      rw [hstep, ih, List.filter_cons_of_pos (by simp [hd])]
      simp [List.foldl_cons]

theorem drawFold_eq {Attr : Type} (env : LabelEnv Attr) (l : List (Nat × Element)) :
    ∀ st : DrawState Attr,
      l.foldl (drawElementStep env) st =
        ⟨st.group ++ l.flatMap (fun p => adjustedElement env p.2 p.1),
         st.labels ++
           (l.flatMap (fun p => adjustedElement env p.2 p.1)).filter
             (fun s => !s.destroyed),
         ((l.flatMap (fun p => adjustedElement env p.2 p.1)).filter
             (fun s => !s.destroyed)).foldl
           (fun m s => m.insert s.id s.attrs) st.labelsCfgMap⟩ := by
  induction l with
  | nil => intro st; simp
  | cons p rest ih =>
    intro st
    rw [List.foldl_cons]
    have hstep : drawElementStep env st p =
        ⟨st.group ++ adjustedElement env p.2 p.1,
         st.labels ++ (adjustedElement env p.2 p.1).filter (fun s => !s.destroyed),
         ((adjustedElement env p.2 p.1).filter (fun s => !s.destroyed)).foldl
           (fun m s => m.insert s.id s.attrs) st.labelsCfgMap⟩ := by
      unfold drawElementStep
      rw [collectLabel_fold]
    rw [hstep, ih, List.flatMap_cons, List.filter_append, List.foldl_append]
    simp [List.append_assoc]

theorem drawPhase_eq {Attr : Type} (env : LabelEnv Attr) (group0 : List (Shape Attr)) :
    drawPhase env group0 =
      ⟨group0 ++ allAdjusted env,
       (allAdjusted env).filter (fun s => !s.destroyed),
       ((allAdjusted env).filter (fun s => !s.destroyed)).foldl
         (fun m s => m.insert s.id s.attrs) []⟩ := by
  unfold drawPhase allAdjusted
  rw [drawFold_eq]
  simp

/-- C8: a drawn label shape that reports itself destroyed after the
adjustment step is not added to the current-pass label list, its
identity is not added to the current snapshot map (when no surviving
label shares the id), and every collected label is non-destroyed. -/
theorem claim_c8_destroyed_excluded {Attr : Type} (env : LabelEnv Attr)
    (group0 : List (Shape Attr)) (s : Shape Attr)
    (hs : s ∈ allAdjusted env) (hd : s.destroyed = true)
    (hall : ∀ t ∈ allAdjusted env, t.id = s.id → t.destroyed = true) :
    s ∉ (drawPhase env group0).labels ∧
    s.id ∉ (drawPhase env group0).labelsCfgMap.keys ∧
    ∀ t ∈ (drawPhase env group0).labels, t.destroyed = false := by
  rw [drawPhase_eq]
  refine ⟨?_, ?_, ?_⟩
  · intro hmem
    have := (List.mem_filter.mp hmem).2
    simp [hd] at this
  · intro hmem
    rcases keys_foldl_insert _ [] s.id hmem with h1 | ⟨t, ht, hid⟩
    · simp [CfgMap.keys] at h1
    · have htA : t ∈ allAdjusted env := (List.mem_filter.mp ht).1
      have htnd := (List.mem_filter.mp ht).2
      have := hall t htA hid
      simp [this] at htnd
  · intro t ht
    have := (List.mem_filter.mp ht).2
    simp at this
    exact this

/-- Witness for C8: a pipeline whose adjustment destroys the only drawn
label; its id is absent from the snapshot map. -/
theorem claim_c8_witness :
    (⟨"A", "label", 5, true⟩ : Shape Nat).id ∉
      (drawPhase envDestroyAll []).labelsCfgMap.keys :=
  (claim_c8_destroyed_excluded envDestroyAll [] ⟨"A", "label", 5, true⟩
    (by decide) rfl (by decide)).2.1
